import Mathlib

/-!
Verification of the core kernel of the cs3210-rustos repository against its
natural-language specification.  The Rust sources are shallowly embedded:
machine integers are `Nat` with explicit `% 2^64` where wrap-around matters,
panics are `Option`/outcome types, and stateful code is explicit state
passing.  Every definition is translated from the repository's source files
(`kern/src/vm/pagetable.rs`, `kern/src/process/*.rs`, `kern/src/traps/*.rs`,
`kern/src/allocator/bin.rs`, `lib/kernel_api/src/lib.rs`); definitions for
parts of the repository that are absent from the source tree (the `param.rs`
constants, the `aarch64::vmsa` descriptor field masks, the `State`/`Priority`
enums) are modelled from the specification and say so in their doc comments.
-/

namespace RustOS

/-- Modelled from the spec: `PAGE_SIZE = 65536` (param.rs is not in the
source tree; the page-table code uses `PAGE_SIZE` throughout). -/
def PAGE_SIZE : Nat := 65536

/-- Modelled from the spec: `USER_IMG_BASE = 0xFFFF_FFFF_C000_0000`
(param.rs is not in the source tree). -/
def USER_IMG_BASE : Nat := 0xFFFFFFFFC0000000

/-- Modelled from the spec: `USER_MAX_VM_SIZE = 3 × 512 MiB`
(param.rs is not in the source tree). -/
def USER_MAX_VM_SIZE : Nat := 3 * (512 * 1024 * 1024)

/-- All ones in 64 bits; `!mask` on a Rust `u64` is `MASK64 ^^^ mask`. -/
def MASK64 : Nat := 2 ^ 64 - 1

/-!
## C1: trap-frame layout

`kern/src/traps/frame.rs` defines `TrapFrame` as a `#[repr(C)]` struct.  We
embed the layout as the ordered list of (field, byte size) pairs exactly as
the struct declares them, and beside it the layout the specification states
(816 bytes, `ttbr0_el1` and `ttbr1_el1` first).  The source file's struct has
no `ttbr0_el1`/`ttbr1_el1` fields and asserts `const_assert_size!(TrapFrame,
800)`, yet `process.rs` assigns `trap_frame.ttbr0_el1`/`ttbr1_el1` and
`scheduler.rs` assigns `trap_frame.ttbr1_el1`: the committed `frame.rs` is
inconsistent with its own callers.
-/

/-- Field layout of `TrapFrame` exactly as committed in
`kern/src/traps/frame.rs` (fields in declaration order, with byte sizes:
`q : [u128; 32]` is 512 bytes, `x : [u64; 31]` is 248 bytes). -/
def srcTrapFrameLayout : List (String × Nat) :=
  [("elr_elx", 8), ("spsr_elx", 8), ("sp_els", 8), ("tpidr_els", 8),
   ("q", 512), ("x", 248), ("xzr", 8)]

/-- Modelled from the spec: the 816-byte trap-frame layout of §6, which is
also the layout the struct's callers (`process.rs`, `scheduler.rs`) require. -/
def specTrapFrameLayout : List (String × Nat) :=
  [("ttbr0_el1", 8), ("ttbr1_el1", 8), ("elr_elx", 8), ("spsr_elx", 8),
   ("sp_user", 8), ("tpidr", 8), ("q", 512), ("x", 248), ("pad", 8)]

/-- Total byte size of a C layout given as ordered (field, size) pairs. -/
def layoutSize (l : List (String × Nat)) : Nat :=
  (l.map Prod.snd).sum

/-- Whether a layout contains a field of the given name. -/
def layoutHasField (l : List (String × Nat)) (f : String) : Bool :=
  l.any (fun p => p.1 == f)

/-- C1 (code_bug).  The committed `TrapFrame` in `kern/src/traps/frame.rs` is
800 bytes and has no `ttbr0_el1`/`ttbr1_el1` fields (its own
`const_assert_size!(TrapFrame, 800)` agrees), while the claim - and the
struct's callers in `process.rs:110-111` and `scheduler.rs:421`, which assign
`trap_frame.ttbr0_el1` and `trap_frame.ttbr1_el1` - require the 816-byte
layout with the two translation-table base registers first.  The committed
`frame.rs` cannot compile against its callers, so the 816-byte layout is the
intent and the committed struct is the slip. -/
theorem trapFrame_src_layout_bug :
    layoutSize srcTrapFrameLayout = 800 ∧
    layoutHasField srcTrapFrameLayout "ttbr0_el1" = false ∧
    layoutHasField srcTrapFrameLayout "ttbr1_el1" = false ∧
    layoutSize specTrapFrameLayout = 816 ∧
    layoutHasField specTrapFrameLayout "ttbr0_el1" = true ∧
    srcTrapFrameLayout.map Prod.fst =
      ["elr_elx", "spsr_elx", "sp_els", "tpidr_els", "q", "x", "xzr"] := by
  refine ⟨rfl, rfl, rfl, rfl, rfl, rfl⟩

/-!
## Page-table engine (`kern/src/vm/pagetable.rs`)

A `PageTable` owns one L2 table and an array `l3: [L3PageTable; 2]` of L3
tables, each of 8192 raw 64-bit entries.  The L2 table only stores pointers
to the L3 tables and is consulted by the hardware walker, never by the
software operations verified here (`locate`, `get_entry_l3`, `is_valid`,
`set_entry`, `get_phyaddr`, `alloc` all index `self.l3` directly), so the
embedding keeps just the L3 tables.  A raw L3 entry is a 64-bit word; the
descriptor field masks come from `aarch64::vmsa` which is not in the source
tree and are modelled from the spec (`{VALID, TYPE, ATTR, AP, SH, AF, ADDR}`
with `ADDR` = bits 47:16, `VALID` = bit 0). -/

/-- Modelled from the spec: `RawL3Entry::ADDR`, the physical-address field,
bits 47:16 of the descriptor (`aarch64::vmsa` is not in the source tree;
`pagetable.rs` documents "address[47:16]"). -/
def ADDR_MASK : Nat := 0xFFFFFFFF0000

/-- Complement of `ADDR_MASK` within 64 bits (`!ADDR` on a `u64`). -/
def NOT_ADDR_MASK : Nat := 0xFFFF00000000FFFF

/-- Source `RawL3Entry::get_masked(mask)`: `self.0 & mask`. -/
def getMasked (e mask : Nat) : Nat := e &&& mask

/-- L3Entry `is_valid`: `self.0.get_masked(1) == 1` (bit 0). -/
def entryValid (e : Nat) : Bool := getMasked e 1 == 1

/-- The `ADDR` field of an entry, as `get_page_addr` extracts it
(`self.0.get_masked(RawL3Entry::ADDR)`). -/
def entryAddr (e : Nat) : Nat := getMasked e ADDR_MASK

/-- Source `L3Entry::get_page_addr`: the physical page address if the entry is
valid, `None` otherwise. -/
def getPageAddr (e : Nat) : Option Nat :=
  if entryValid e then some (entryAddr e) else none

/-- Source `PageTable`: the two owned L3 tables (`l3: [L3PageTable; 2]`), each a
list of 8192 raw 64-bit entries. -/
structure PageTable where
  l3 : List (List Nat)
  deriving Repr

/-- Number of L3 tables a `PageTable` owns in the committed source:
`l3: [L3PageTable; 2]`. -/
def NUM_L3_TABLES : Nat := 2

/-- Source `PageTable::new`: both L3 tables start with all 8192 entries equal to
`RawL3Entry::new(0)` (invalid).  The permission argument only affects the L2
descriptors, which the verified operations never read. -/
def PageTable.new : PageTable :=
  ⟨[List.replicate 8192 0, List.replicate 8192 0]⟩

/-- Source `PT_L2_INDEX_MASK` from the source. -/
def PT_L2_INDEX_MASK : Nat := 0x3FFE0000000

/-- Source `PT_L3_INDEX_MASK` from the source. -/
def PT_L3_INDEX_MASK : Nat := 0x1FFF0000

/-- Source `PageTable::locate`: panics (`none`) when the virtual address is not
page-aligned, or when the extracted L2 index is ≥ 3 ("level2 index larger
than 2"); otherwise returns `(L2 index, L3 index)`.  The shifts 29 and 16
are `PT_L2_INDEX_MASK.trailing_zeros()` and
`PT_L3_INDEX_MASK.trailing_zeros()`. -/
def locate (va : Nat) : Option (Nat × Nat) :=
  if va % PAGE_SIZE ≠ 0 then none
  else
    let indexL2 := (va &&& PT_L2_INDEX_MASK) >>> 29
    let indexL3 := (va &&& PT_L3_INDEX_MASK) >>> 16
    if indexL2 < 3 then some (indexL2, indexL3) else none

/-- Source `PageTable::get_entry_l3`: locates the indices and indexes
`self.l3[l2index].entries[l3index]`.  Rust's array indexing panics when
`l2index` is out of bounds of the length-2 `l3` array; the panic is `none`. -/
def PageTable.getEntryL3 (pt : PageTable) (va : Nat) : Option Nat :=
  (locate va).bind fun p =>
    (pt.l3.get? p.1).bind fun row => row.get? p.2

/-- Source `PageTable::is_valid` (via `get_entry_l3`); `none` is a panic. -/
def PageTable.isValid (pt : PageTable) (va : Nat) : Option Bool :=
  (pt.getEntryL3 va).map entryValid

/-- Source `PageTable::set_entry` (via `get_entry_l3_mut`); `none` is a panic. -/
def PageTable.setEntry (pt : PageTable) (va e : Nat) : Option PageTable :=
  (locate va).bind fun p =>
    (pt.l3.get? p.1).bind fun row =>
      if p.2 < row.length then some ⟨pt.l3.set p.1 (row.set p.2 e)⟩ else none

/-- Source `PageTable::get_phyaddr`: reads the L3 entry at `va & !0xFFFF` and ORs
the 16-bit page offset into its `ADDR` field; `none` is a panic. -/
def PageTable.getPhyaddr (pt : PageTable) (va : Nat) : Option Nat :=
  (pt.getEntryL3 (va &&& (MASK64 ^^^ 0xFFFF))).map
    (fun e => getMasked e ADDR_MASK ||| (va &&& 0xFFFF))

/-- C2 (code_bug).  `locate` accepts L2 index 2 (its guard is `index_l2 < 3`
and its panic message says "level2 index larger than 2"), and the source
comment above `PageTable::new` says "L2 page table have at most three valid
entries", matching the spec's `USER_MAX_VM_SIZE = 3 × 512 MiB`; but the
struct declares only two L3 tables (`l3: [L3PageTable; 2]`), so every
page-table operation on a page-aligned address with L2 index 2 (translated
address `0x4000_0000`) passes `locate` and then panics on the out-of-bounds
`self.l3[2]` access: only 2 × 512 MiB of user virtual memory is usable.
Addresses with L2 index 0 or 1 work as claimed (shown here on the fresh
table at the base addresses of the two 512-MiB regions). -/
theorem pagetable_l2_index2_panics :
    locate (2 * 2 ^ 29) = some (2, 0) ∧
    PageTable.getEntryL3 PageTable.new (2 * 2 ^ 29) = none ∧
    PageTable.isValid PageTable.new (2 * 2 ^ 29) = none ∧
    PageTable.setEntry PageTable.new (2 * 2 ^ 29) 0 = none ∧
    PageTable.new.l3.length = NUM_L3_TABLES ∧
    NUM_L3_TABLES = 2 ∧
    USER_MAX_VM_SIZE = 3 * 2 ^ 29 ∧
    PageTable.getEntryL3 PageTable.new 0 = some 0 ∧
    PageTable.getEntryL3 PageTable.new (1 * 2 ^ 29) = some 0 ∧
    PageTable.isValid PageTable.new (1 * 2 ^ 29) = some false := by
  exact ⟨rfl, rfl, rfl, rfl, rfl, rfl, rfl, rfl, rfl, rfl⟩

/-!
## Bit-level facts about the descriptor masks
-/

theorem addrMask_testBit (i : Nat) :
    ADDR_MASK.testBit i = (decide (16 ≤ i) && decide (i < 48)) := by
  have h : ADDR_MASK = (2 ^ 48 - 1) ^^^ (2 ^ 16 - 1) := by decide
  rw [h, Nat.testBit_xor, Nat.testBit_two_pow_sub_one,
    Nat.testBit_two_pow_sub_one]
  by_cases h16 : 16 ≤ i <;> by_cases h48 : i < 48 <;>
    simp [h16, h48] <;> omega

theorem notAddrMask_testBit (i : Nat) :
    NOT_ADDR_MASK.testBit i =
      (decide (i < 16) || (decide (48 ≤ i) && decide (i < 64))) := by
  have h : NOT_ADDR_MASK = (2 ^ 64 - 1) ^^^ ADDR_MASK := by decide
  rw [h, Nat.testBit_xor, Nat.testBit_two_pow_sub_one, addrMask_testBit]
  by_cases h16 : 16 ≤ i <;> by_cases h48 : i < 48 <;> by_cases h64 : i < 64 <;>
    simp [h16, h48, h64] <;> omega

/-- A 64-KiB-aligned value has no bits below bit 16. -/
theorem testBit_eq_false_of_align {f : Nat} (hf : f % 65536 = 0) {i : Nat}
    (hi : i < 16) : f.testBit i = false := by
  have h : f.testBit i = (f % 2 ^ 16).testBit i := by
    rw [Nat.testBit_mod_two_pow]
    simp [hi]
  rw [h, show (2 : Nat) ^ 16 = 65536 from rfl, hf]
  simp

/-- A value below `2 ^ 48` has no bits at or above bit 48. -/
theorem testBit_eq_false_of_lt48 {f : Nat} (hf : f < 2 ^ 48) {i : Nat}
    (hi : 48 ≤ i) : f.testBit i = false :=
  Nat.testBit_lt_two_pow (Nat.lt_of_lt_of_le hf (Nat.pow_le_pow_right (by omega) hi))

/-- Masking a 64-KiB-aligned value below `2 ^ 48` with `ADDR_MASK` is the
identity. -/
theorem addr_of_aligned_frame {f : Nat} (hal : f % 65536 = 0)
    (hlt : f < 2 ^ 48) : f &&& ADDR_MASK = f := by
  apply Nat.eq_of_testBit_eq
  intro i
  rw [Nat.testBit_and, addrMask_testBit]
  by_cases h16 : 16 ≤ i
  · by_cases h48 : i < 48
    · simp [h16, h48]
    · have hz : f.testBit i = false := testBit_eq_false_of_lt48 hlt (by omega)
      simp [h48, hz]
  · have hz : f.testBit i = false := testBit_eq_false_of_align hal (by omega)
    simp [h16, hz]

/-!
## `UserPageTable` (`kern/src/vm/pagetable.rs`)

`UserPageTable::alloc(va, _perm)` panics when `va < USER_IMG_BASE`, subtracts
`USER_IMG_BASE`, panics when the L3 entry at the translated address is
already valid, obtains one 64-KiB frame from the bin allocator (panicking on
a null return), builds a valid `USER_RW` L3 descriptor for the frame, and
installs it with `set_entry`.  The allocator is external state; the frame it
returns is a parameter here (`0` models the null return). -/

/-- Modelled from the spec: the lower-attribute bits `alloc` sets on a new
L3 entry - `AF` (bit 10), `SH = ISh` (bits 9:8 = 0b11), `AP = USER_RW`
(bits 7:6 = 0b01), `ATTR = Mem` (bits 4:2), `TYPE = Page` (bit 1) and
`VALID` (bit 0); the numeric field encoding is from `aarch64::vmsa`, which
is not in the source tree.  Only `VALID` (bit 0) and `ADDR` matter to the
theorems below. -/
def ENTRY_FLAGS_USER_RW : Nat := 0x400 ||| 0x300 ||| 0x40 ||| 0x2 ||| 0x1

/-- The raw L3 descriptor `alloc` builds: `entry.set(physical_addr)` followed
by the flag `set_value`/`set_bit` calls, which OR the lower-attribute fields
into the (64-KiB-aligned) frame address. -/
def mkUserEntry (frame : Nat) : Nat := frame ||| ENTRY_FLAGS_USER_RW

/-- Source `UserPageTable::alloc`; `none` is a panic (address below `USER_IMG_BASE`,
already-allocated address, unaligned address, or null frame from the
allocator). -/
def UserPageTable.alloc (pt : PageTable) (va frame : Nat) : Option PageTable :=
  if va < USER_IMG_BASE then none
  else
    match pt.isValid (va - USER_IMG_BASE) with
    | none => none
    | some true => none
    | some false =>
      if frame = 0 then none
      else pt.setEntry (va - USER_IMG_BASE) (mkUserEntry frame)

theorem mkUserEntry_valid (frame : Nat) : entryValid (mkUserEntry frame) = true := by
  have h0 : (mkUserEntry frame).testBit 0 = true := by
    rw [mkUserEntry, Nat.testBit_or]
    simp [show ENTRY_FLAGS_USER_RW.testBit 0 = true from by decide]
  rw [Nat.testBit_zero, decide_eq_true_eq] at h0
  simp [entryValid, getMasked, Nat.and_one_is_mod, h0]

/-- The `ADDR` field of the descriptor `alloc` builds is exactly the frame
address, for a 64-KiB-aligned frame below `2 ^ 48`. -/
theorem mkUserEntry_addr {frame : Nat} (hal : frame % 65536 = 0)
    (hlt : frame < 2 ^ 48) : entryAddr (mkUserEntry frame) = frame := by
  have h : entryAddr (mkUserEntry frame) = frame &&& ADDR_MASK := by
    apply Nat.eq_of_testBit_eq
    intro i
    simp only [entryAddr, getMasked, mkUserEntry, Nat.testBit_and, Nat.testBit_or]
    by_cases h16 : i < 16
    · have hn : ¬ 16 ≤ i := by omega
      simp [addrMask_testBit, hn]
    · have hf : ENTRY_FLAGS_USER_RW.testBit i = false :=
        Nat.testBit_lt_two_pow
          (Nat.lt_of_lt_of_le (by decide : ENTRY_FLAGS_USER_RW < 2 ^ 16)
            (Nat.pow_le_pow_right (by omega) (by omega)))
      simp [hf]
  rw [h, addr_of_aligned_frame hal hlt]

/-- Clearing the 16 low bits of a page-aligned 64-bit value (`va & !0xFFFF`)
is the identity. -/
theorem high_mask_of_aligned {v : Nat} (hal : v % 65536 = 0)
    (hlt : v < 2 ^ 64) : v &&& (MASK64 ^^^ 0xFFFF) = v := by
  apply Nat.eq_of_testBit_eq
  intro i
  have hm : MASK64 ^^^ 0xFFFF = (2 ^ 64 - 1) ^^^ (2 ^ 16 - 1) := by decide
  rw [Nat.testBit_and, hm, Nat.testBit_xor, Nat.testBit_two_pow_sub_one,
    Nat.testBit_two_pow_sub_one]
  by_cases h16 : i < 16
  · have hz : v.testBit i = false := testBit_eq_false_of_align hal h16
    simp [hz]
  · by_cases h64 : i < 64
    · simp [h16, h64]
    · have hz : v.testBit i = false :=
        Nat.testBit_lt_two_pow
          (Nat.lt_of_lt_of_le hlt (Nat.pow_le_pow_right (by omega) (by omega)))
      simp [hz]

/-- The 16-bit page offset of a page-aligned value is zero. -/
theorem low_mask_of_aligned {v : Nat} (hal : v % 65536 = 0) :
    v &&& 0xFFFF = 0 := by
  have h : v &&& 0xFFFF = v % 2 ^ 16 := by
    have hm : (0xFFFF : Nat) = 2 ^ 16 - 1 := by decide
    rw [hm, Nat.and_pow_two_sub_one_eq_mod]
  rw [h, show (2 : Nat) ^ 16 = 65536 from rfl, hal]

/-- C6 (confirmed).  For every page-aligned user virtual address `va ≥
USER_IMG_BASE` whose L3 entry (at the user-base-translated address, as every
user-table operation addresses entries) is currently invalid, and a non-null
64-KiB frame from the allocator, `UserPageTable::alloc` succeeds and installs
a valid L3 entry for the frame: afterwards `is_valid` holds and `get_phyaddr`
returns the frame's base address; a second `alloc` at the same address
panics, and `alloc` at any address below `USER_IMG_BASE` panics. -/
theorem user_alloc_spec (pt : PageTable) (va frame : Nat)
    (hva : va < 2 ^ 64) (hbase : USER_IMG_BASE ≤ va) (hal : va % PAGE_SIZE = 0)
    (hinv : pt.isValid (va - USER_IMG_BASE) = some false)
    (hf0 : frame ≠ 0) (hfal : frame % 65536 = 0) (hflt : frame < 2 ^ 48) :
    ∃ pt', UserPageTable.alloc pt va frame = some pt' ∧
      pt'.isValid (va - USER_IMG_BASE) = some true ∧
      pt'.getPhyaddr (va - USER_IMG_BASE) = some frame ∧
      (∀ f2, UserPageTable.alloc pt' va f2 = none) ∧
      (∀ va2 f2, va2 < USER_IMG_BASE → UserPageTable.alloc pt va2 f2 = none) := by
  have hnlt : ¬ va < USER_IMG_BASE := by omega
  set va2 := va - USER_IMG_BASE with hva2
  have hal2 : va2 % 65536 = 0 := by
    have hb : USER_IMG_BASE % 65536 = 0 := by decide
    simp only [PAGE_SIZE] at hal
    omega
  have hlt2 : va2 < 2 ^ 64 := by omega
  obtain ⟨e, he, hev⟩ := Option.map_eq_some'.mp hinv
  rw [PageTable.getEntryL3] at he
  rcases hl : locate va2 with _ | ⟨i2, i3⟩
  · rw [hl] at he
    simp at he
  rw [hl] at he
  simp only [Option.some_bind] at he
  rcases hr : pt.l3.get? i2 with _ | row
  · rw [hr] at he
    simp at he
  rw [hr] at he
  simp only [Option.some_bind] at he
  have hrow : row.get? i3 = some e := he
  have hi3 : i3 < row.length := by
    by_contra hc
    rw [List.get?_eq_getElem?, List.getElem?_eq_none (by omega)] at hrow
    exact absurd hrow (by simp)
  have hi2 : i2 < pt.l3.length := by
    by_contra hc
    rw [List.get?_eq_getElem?, List.getElem?_eq_none (by omega)] at hr
    exact absurd hr (by simp)
  set pt' : PageTable := ⟨pt.l3.set i2 (row.set i3 (mkUserEntry frame))⟩ with hpt'
  have hset : pt.setEntry va2 (mkUserEntry frame) = some pt' := by
    rw [PageTable.setEntry, hl]
    simp only [Option.some_bind]
    rw [hr]
    simp only [Option.some_bind]
    rw [if_pos hi3]
  have halloc : UserPageTable.alloc pt va frame = some pt' := by
    rw [UserPageTable.alloc, if_neg hnlt, ← hva2, hinv]
    show (if frame = 0 then none else pt.setEntry va2 (mkUserEntry frame)) = some pt'
    rw [if_neg hf0]
    exact hset
  have hget' : pt'.getEntryL3 va2 = some (mkUserEntry frame) := by
    rw [PageTable.getEntryL3, hl]
    simp only [Option.some_bind]
    rw [List.get?_eq_getElem?, List.getElem?_set_self hi2]
    simp only [Option.some_bind]
    rw [List.get?_eq_getElem?, List.getElem?_set_self (by simpa using hi3)]
  have hvalid' : pt'.isValid va2 = some true := by
    rw [PageTable.isValid, hget']
    simp [mkUserEntry_valid]
  refine ⟨pt', halloc, hvalid', ?_, ?_, ?_⟩
  · rw [PageTable.getPhyaddr, high_mask_of_aligned hal2 hlt2, hget']
    simp only [Option.map_some', Option.some.injEq]
    rw [low_mask_of_aligned hal2, Nat.or_zero]
    exact mkUserEntry_addr hfal hflt
  · intro f2
    rw [UserPageTable.alloc, if_neg hnlt, ← hva2, hvalid']
  · intro va2' f2 hlow
    rw [UserPageTable.alloc, if_pos hlow]

/-- Witness for C6: allocating frame `0x20000` at `USER_IMG_BASE` in a fresh
user table. -/
theorem user_alloc_spec_witness :
    ∃ pt', UserPageTable.alloc PageTable.new USER_IMG_BASE 0x20000 = some pt' ∧
      pt'.isValid (USER_IMG_BASE - USER_IMG_BASE) = some true ∧
      pt'.getPhyaddr (USER_IMG_BASE - USER_IMG_BASE) = some 0x20000 ∧
      (∀ f2, UserPageTable.alloc pt' USER_IMG_BASE f2 = none) ∧
      (∀ va2 f2, va2 < USER_IMG_BASE →
        UserPageTable.alloc PageTable.new va2 f2 = none) :=
  user_alloc_spec PageTable.new USER_IMG_BASE 0x20000 (by decide) (by decide)
    (by decide) (by rfl) (by decide) (by decide) (by decide)

/-!
## `UserPageTable::from` - cloning a user page table for fork

`from(old)` walks the 16384 L3 entries of both tables in lockstep (the two
chained `into_iter`s).  `self` is the fresh table `Process::fork` just built
with `Process::new` (every entry `0`, invalid), so entries skipped by the
`None` arm stay `0`.  For every valid source entry it asks the bin allocator
for a frame (panicking on null - modelled by exhausting the `frames` list),
copies `PAGE_SIZE` bytes from the source frame (`copy_nonoverlapping`),
assigns `*new_entry = *old_entry` and overwrites the `ADDR` field with the
fresh frame (`set_masked(new_addr, RawL3Entry::ADDR)`).  Memory is a byte
function `Nat → Nat`; the allocator's successive return values are the
`frames` list parameter. -/

/-- Source `*new_entry = *old_entry` followed by
`new_entry.0.set_masked(new_addr, RawL3Entry::ADDR)`:
keep every descriptor bit outside `ADDR`, replace `ADDR` with the fresh
frame's address. -/
def cloneEntry (e f : Nat) : Nat := (e &&& NOT_ADDR_MASK) ||| (f &&& ADDR_MASK)

/-- Source `core::ptr::copy_nonoverlapping(src, dst, PAGE_SIZE)` on byte memory. -/
def copyFrame (mem : Nat → Nat) (src dst : Nat) : Nat → Nat :=
  fun a => if dst ≤ a ∧ a < dst + 65536 then mem (src + (a - dst)) else mem a

/-- Source `UserPageTable::from`, iterating source entries in order with the clone's
fresh (all-zero) entries in lockstep.  Returns the clone's entries, the
memory after the byte copies, and the unconsumed allocator frames; `none` is
the "allocator fails to allocate a page" panic. -/
def clone_from : (Nat → Nat) → List Nat → List Nat →
    Option (List Nat × (Nat → Nat) × List Nat)
  | mem, [], fs => some ([], mem, fs)
  | mem, e :: es, fs =>
    if entryValid e then
      match fs with
      | [] => none
      | f :: fs2 =>
        (clone_from (copyFrame mem (entryAddr e) f) es fs2).map
          fun r => (cloneEntry e f :: r.1, r.2)
    else
      (clone_from mem es fs).map fun r => (0 :: r.1, r.2)

theorem clone_from_cons (mem : Nat → Nat) (e : Nat) (es fs : List Nat) :
    clone_from mem (e :: es) fs =
      if entryValid e then
        match fs with
        | [] => none
        | f :: fs2 =>
          (clone_from (copyFrame mem (entryAddr e) f) es fs2).map
            fun r => (cloneEntry e f :: r.1, r.2)
      else (clone_from mem es fs).map fun r => (0 :: r.1, r.2) := rfl

/-- Two 64-KiB frames at these base addresses do not overlap. -/
def FrameDisj (a b : Nat) : Prop := a + 65536 ≤ b ∨ b + 65536 ≤ a

instance (a b : Nat) : Decidable (FrameDisj a b) := by
  unfold FrameDisj
  infer_instance

/-- Number of valid entries in a table - the number of frames the clone
allocates. -/
def countValid (l : List Nat) : Nat := l.countP (fun e => entryValid e)

theorem entryValid_eq_testBit (x : Nat) : entryValid x = x.testBit 0 := by
  rw [entryValid, getMasked, Nat.and_one_is_mod, Nat.testBit_zero]
  rcases Nat.mod_two_eq_zero_or_one x with h | h <;> simp [h]

theorem cloneEntry_valid (e f : Nat) : entryValid (cloneEntry e f) = entryValid e := by
  have h1 : NOT_ADDR_MASK.testBit 0 = true := by decide
  have h2 : ADDR_MASK.testBit 0 = false := by decide
  rw [entryValid_eq_testBit, entryValid_eq_testBit, cloneEntry, Nat.testBit_or,
    Nat.testBit_and, Nat.testBit_and, h1, h2]
  simp

theorem addr_notAddr_disjoint (i : Nat) :
    (ADDR_MASK.testBit i && NOT_ADDR_MASK.testBit i) = false := by
  rw [addrMask_testBit, notAddrMask_testBit]
  by_cases h16 : 16 ≤ i <;> by_cases h48 : i < 48 <;> simp [h16, h48]

/-- The clone keeps every descriptor bit outside the `ADDR` field. -/
theorem cloneEntry_nonAddr (e f : Nat) :
    cloneEntry e f &&& NOT_ADDR_MASK = e &&& NOT_ADDR_MASK := by
  apply Nat.eq_of_testBit_eq
  intro i
  simp only [cloneEntry, Nat.testBit_and, Nat.testBit_or]
  cases hN : NOT_ADDR_MASK.testBit i
  · simp
  · have hA : ADDR_MASK.testBit i = false := by
      have h := addr_notAddr_disjoint i
      rw [hN] at h
      simpa using h
    simp [hA]

/-- The clone's `ADDR` field is exactly the fresh frame address, for a
64-KiB-aligned frame below `2 ^ 48`. -/
theorem cloneEntry_addr (e : Nat) {f : Nat} (hal : f % 65536 = 0)
    (hlt : f < 2 ^ 48) : entryAddr (cloneEntry e f) = f := by
  apply Nat.eq_of_testBit_eq
  intro i
  simp only [entryAddr, getMasked, cloneEntry, Nat.testBit_and, Nat.testBit_or]
  cases hA : ADDR_MASK.testBit i
  · have hz : f.testBit i = false := by
      rcases Nat.lt_or_ge i 16 with h16 | h16
      · exact testBit_eq_false_of_align hal h16
      · rcases Nat.lt_or_ge i 48 with h48 | h48
        · rw [addrMask_testBit] at hA
          exact absurd hA (by simp [h16, h48])
        · exact testBit_eq_false_of_lt48 hlt h48
    simp [hz]
  · have hN : NOT_ADDR_MASK.testBit i = false := by
      have h := addr_notAddr_disjoint i
      rw [hA] at h
      simpa using h
    simp [hN]

/-- A disjoint 64-KiB frame is a different address. -/
theorem FrameDisj.ne {a b : Nat} (h : FrameDisj a b) : a ≠ b := by
  rcases h with h | h <;> omega

/-- Frame disjointness is symmetric. -/
theorem FrameDisj.symm {a b : Nat} (h : FrameDisj a b) : FrameDisj b a := by
  rcases h with h | h
  · exact Or.inr h
  · exact Or.inl h

/-- An offset into one frame never lands in a disjoint frame. -/
theorem FrameDisj.not_in_range {a b off : Nat} (h : FrameDisj a b)
    (hoff : off < 65536) : ¬ (b ≤ a + off ∧ a + off < b + 65536) := by
  rcases h with h | h <;> omega

/-- C5 (confirmed).  Cloning a user table for fork: provided the allocator
returns enough frames (one per valid source entry), all 64-KiB-aligned,
below `2 ^ 48`, mutually non-overlapping and not overlapping any source
frame - the bin allocator's contract for fresh frames - `clone_from`
succeeds, and for every source entry: an invalid entry stays invalid
(`0`) in the clone, and a valid entry yields a valid clone entry at the
same position whose descriptor bits outside `ADDR` equal the source's,
whose `ADDR` is a fresh frame distinct from the source frame, and whose
64 KiB of memory contents equal the source frame's bytes; memory outside
the fresh frames is untouched. -/
theorem clone_from_spec (olds : List Nat) : ∀ (frames : List Nat) (mem : Nat → Nat),
    countValid olds ≤ frames.length →
    frames.Pairwise FrameDisj →
    (∀ f ∈ frames, ∀ e ∈ olds, entryValid e = true → FrameDisj f (entryAddr e)) →
    (∀ f ∈ frames, f % 65536 = 0 ∧ f < 2 ^ 48) →
    ∃ news m rest, clone_from mem olds frames = some (news, m, rest) ∧
      news.length = olds.length ∧
      (∀ a, (∀ f ∈ frames, ¬ (f ≤ a ∧ a < f + 65536)) → m a = mem a) ∧
      (∀ (i e : Nat), olds[i]? = some e →
        (entryValid e = false → news[i]? = some 0) ∧
        (entryValid e = true → ∃ f, f ∈ frames ∧
          news[i]? = some (cloneEntry e f) ∧
          entryValid (cloneEntry e f) = true ∧
          entryAddr (cloneEntry e f) = f ∧
          cloneEntry e f &&& NOT_ADDR_MASK = e &&& NOT_ADDR_MASK ∧
          f ≠ entryAddr e ∧
          (∀ off < 65536, m (f + off) = mem (entryAddr e + off)))) := by
  induction olds with
  | nil =>
    intro frames mem _ _ _ _
    refine ⟨[], mem, frames, rfl, rfl, fun a _ => rfl, ?_⟩
    intro i e hi
    simp at hi
  | cons e es ih =>
    intro frames mem hcnt hpw hsrc halign
    by_cases hv : entryValid e = true
    · rcases frames with _ | ⟨f, fs2⟩
      · rw [countValid, List.countP_cons, hv] at hcnt
        simp at hcnt
      have hcnt2 : countValid es ≤ fs2.length := by
        rw [countValid] at hcnt ⊢
        rw [List.countP_cons] at hcnt
        simp [hv] at hcnt
        omega
      have hpwc := List.pairwise_cons.mp hpw
      have hsrc2 : ∀ f2 ∈ fs2, ∀ e2 ∈ es, entryValid e2 = true →
          FrameDisj f2 (entryAddr e2) := fun f2 hf2 e2 he2 hv2 =>
        hsrc f2 (List.mem_cons_of_mem f hf2) e2 (List.mem_cons_of_mem e he2) hv2
      have halign2 : ∀ f2 ∈ fs2, f2 % 65536 = 0 ∧ f2 < 2 ^ 48 := fun f2 hf2 =>
        halign f2 (List.mem_cons_of_mem f hf2)
      obtain ⟨news, m, rest, heq, hlen, huntouched, hidx⟩ :=
        ih fs2 (copyFrame mem (entryAddr e) f) hcnt2 hpwc.2 hsrc2 halign2
      have hfal : f % 65536 = 0 := (halign f (List.mem_cons_self f fs2)).1
      have hflt : f < 2 ^ 48 := (halign f (List.mem_cons_self f fs2)).2
      have hfe : FrameDisj f (entryAddr e) :=
        hsrc f (List.mem_cons_self f fs2) e (List.mem_cons_self e es) hv
      refine ⟨cloneEntry e f :: news, m, rest, ?_, by simp [hlen], ?_, ?_⟩
      · rw [clone_from_cons, if_pos hv]
        show Option.map (fun r => (cloneEntry e f :: r.1, r.2))
          (clone_from (copyFrame mem (entryAddr e) f) es fs2) =
            some (cloneEntry e f :: news, m, rest)
        rw [heq]
        rfl
      · intro a ha
        have h1 : m a = copyFrame mem (entryAddr e) f a :=
          huntouched a (fun f2 hf2 => ha f2 (List.mem_cons_of_mem f hf2))
        rw [h1, copyFrame, if_neg (ha f (List.mem_cons_self f fs2))]
      · intro i e2 hi
        rcases i with _ | j
        · simp only [List.getElem?_cons_zero, Option.some.injEq] at hi
          subst hi
          constructor
          · intro hc
            rw [hv] at hc
            exact absurd hc (by simp)
          · intro _
            refine ⟨f, List.mem_cons_self f fs2, List.getElem?_cons_zero, ?_,
              cloneEntry_addr e hfal hflt,
              cloneEntry_nonAddr e f, hfe.ne, ?_⟩
            · rw [cloneEntry_valid, hv]
            · intro off hoff
              have hout : ∀ f2 ∈ fs2, ¬ (f2 ≤ f + off ∧ f + off < f2 + 65536) := by
                intro f2 hf2
                exact (hpwc.1 f2 hf2).not_in_range hoff
              rw [huntouched (f + off) hout, copyFrame,
                if_pos ⟨Nat.le_add_right f off, by omega⟩]
              congr 1
              omega
        · simp only [List.getElem?_cons_succ] at hi
          have h2 := hidx j e2 hi
          have he2mem : e2 ∈ es := List.getElem?_mem hi
          constructor
          · intro hc
            simp only [List.getElem?_cons_succ]
            exact (h2.1) hc
          · intro hv2
            obtain ⟨f2, hf2mem, hnews, hval, haddr, hnonaddr, hne, hcontents⟩ :=
              h2.2 hv2
            refine ⟨f2, List.mem_cons_of_mem f hf2mem, by simpa using hnews, hval,
              haddr, hnonaddr, hne, ?_⟩
            intro off hoff
            rw [hcontents off hoff, copyFrame]
            have hdisj : FrameDisj f (entryAddr e2) :=
              hsrc f (List.mem_cons_self f fs2) e2 (List.mem_cons_of_mem e he2mem) hv2
            rw [if_neg (hdisj.symm.not_in_range hoff)]
    · have hv2 : entryValid e = false := by
        cases h : entryValid e
        · rfl
        · exact absurd h hv
      have hcnt2 : countValid es ≤ frames.length := by
        rw [countValid, List.countP_cons, hv2] at hcnt
        simpa using hcnt
      obtain ⟨news, m, rest, heq, hlen, huntouched, hidx⟩ :=
        ih frames mem hcnt2 hpw
          (fun f hf e2 he2 hve2 => hsrc f hf e2 (List.mem_cons_of_mem e he2) hve2)
          halign
      refine ⟨0 :: news, m, rest, ?_, by simp [hlen], huntouched, ?_⟩
      · rw [clone_from_cons, if_neg (by simp [hv2]), heq]
        rfl
      · intro i e2 hi
        rcases i with _ | j
        · simp only [List.getElem?_cons_zero, Option.some.injEq] at hi
          subst hi
          exact ⟨fun _ => by simp, fun hc => absurd hc (by simp [hv2])⟩
        · simp only [List.getElem?_cons_succ] at hi
          have h2 := hidx j e2 hi
          exact ⟨fun hc => by simpa using h2.1 hc,
            fun hc => by simpa using h2.2 hc⟩

/-- Witness for C5: cloning a one-entry table whose single valid entry maps
frame `0x10000`, with the allocator handing out the disjoint frame
`0x20000`. -/
theorem clone_from_spec_witness :
    ∃ news m rest,
      clone_from (fun a => a % 251) [0x10001] [0x20000] = some (news, m, rest) ∧
      news.length = ([0x10001] : List Nat).length ∧
      (∀ a, (∀ f ∈ ([0x20000] : List Nat), ¬ (f ≤ a ∧ a < f + 65536)) →
        m a = a % 251) ∧
      (∀ (i e : Nat), ([0x10001] : List Nat)[i]? = some e →
        (entryValid e = false → news[i]? = some 0) ∧
        (entryValid e = true → ∃ f, f ∈ ([0x20000] : List Nat) ∧
          news[i]? = some (cloneEntry e f) ∧
          entryValid (cloneEntry e f) = true ∧
          entryAddr (cloneEntry e f) = f ∧
          cloneEntry e f &&& NOT_ADDR_MASK = e &&& NOT_ADDR_MASK ∧
          f ≠ entryAddr e ∧
          (∀ off < 65536, m (f + off) = (entryAddr e + off) % 251))) :=
  clone_from_spec [0x10001] [0x20000] (fun a => a % 251) (by decide)
    (by simp) (by decide) (by decide)

/-!
## Trap frame and error numbers

The trap-frame record used by the embedding of `process.rs`, `scheduler.rs`
and `traps/syscall.rs`.  It is the layout those callers require (and the spec
documents): the committed `frame.rs` lacks the two `ttbr` fields - see C1.
Registers are `Nat` values below `2 ^ 64`; `x` has 31 slots (`x0..x30`). -/

structure TrapFrame where
  ttbr0_el1 : Nat
  ttbr1_el1 : Nat
  elr_elx : Nat
  spsr_elx : Nat
  sp_els : Nat
  tpidr_els : Nat
  q : List Nat
  x : List Nat
  xzr : Nat
  deriving Repr, DecidableEq

/-- The zeroed trap frame (`Default`). -/
def TrapFrame.zeroed : TrapFrame :=
  ⟨0, 0, 0, 0, 0, 0, List.replicate 32 0, List.replicate 31 0, 0⟩

/-- Writing one general-purpose register slot (`tf.x[i] = v`). -/
def TrapFrame.setX (tf : TrapFrame) (i v : Nat) : TrapFrame :=
  { tf with x := tf.x.set i v }

/-- Source `OsError::Ok as u64` (`lib/kernel_api/src/lib.rs`). -/
def OsError_Ok : Nat := 1

/-- Source `OsError::IdOverflow as u64` (`lib/kernel_api/src/lib.rs`). -/
def OsError_IdOverflow : Nat := 300

/-!
## C3: process-id allocation overflow (`kern/src/process/scheduler.rs`)

`Scheduler::add` allocates the next id with `last_id.checked_add(1)`; on
`None` (the 64-bit counter would overflow) it executes
`panic!("process id overflow")` instead of returning `None`.
`Scheduler::fork` calls `add` and maps a `None` return to
`Err(OsError::IdOverflow)` - but `add` never returns `None` (it returns
`Some` or panics), so that error arm is dead and `sys_fork`'s
`Err(errnum) => tf.x[7] = errnum` write can never see `IdOverflow`. -/

/-- The id-allocation step of `Scheduler::add`: given `last_id`, produce the
new process id and the updated `last_id`; `none` is the
`panic!("process id overflow")`. -/
def schedAddId : Option Nat → Option (Nat × Option Nat)
  | some id => if id + 1 < 2 ^ 64 then some (id + 1, some (id + 1)) else none
  | none => some (0, some 0)

/-- The result `Scheduler::fork` hands to `sys_fork`, as a function of
`last_id` (the page-table clone and queue push always succeed here): `add`
either panics (`none`, propagated) or returns `Some(id)`, which `fork` maps
to `Ok(id)`; the `else` arm producing `Err(OsError::IdOverflow)` needs `add`
to return `None`, which it never does. -/
def schedForkOutcome (lastId : Option Nat) : Option (Except Nat Nat) :=
  match schedAddId lastId with
  | none => none
  | some r => some (Except.ok r.1)

/-- Source `sys_fork`'s trap-frame update for a fork result that did return:
`Ok(id)` sets `x0 = id, x7 = 1`; `Err(errnum)` sets `x7 = errnum`. -/
def sys_fork_update (res : Except Nat Nat) (tf : TrapFrame) : TrapFrame :=
  match res with
  | .ok id => (tf.setX 0 id).setX 7 OsError_Ok
  | .error e => tf.setX 7 e

/-- C3 (code_bug).  When the next id would exceed the 64-bit counter
(`last_id = 2^64 - 1`), `Scheduler::add` panics ("process id overflow")
instead of failing, so `fork` panics too and never returns
`Err(OsError::IdOverflow)`: the parent cannot observe the error in `x7`.
The `Err(IdOverflow)` arm in `Scheduler::fork` and the `IdOverflow` error
number in `kernel_api` show the claimed behaviour is the intent; the
`panic!` in `add` makes that path unreachable. -/
theorem fork_id_overflow_panics :
    schedAddId (some (2 ^ 64 - 1)) = none ∧
    schedForkOutcome (some (2 ^ 64 - 1)) = none ∧
    (∀ last, schedForkOutcome last ≠ some (Except.error OsError_IdOverflow)) := by
  refine ⟨by decide, rfl, ?_⟩
  intro last
  cases last with
  | none => simp [schedForkOutcome, schedAddId]
  | some id =>
    simp only [schedForkOutcome, schedAddId]
    by_cases h : id + 1 < 2 ^ 64
    · rw [if_pos h]
      simp
    · rw [if_neg h]
      simp

/-!
## C4: unknown syscall numbers (`kern/src/traps/syscall.rs`)

`handle_syscall(num, tf)` matches the number against the implemented table
(`NR_SLEEP = 1` ... `NR_GETCWD = 9`, `NR_WRITE_STR = 14`,
`NR_GETPRIORITY = 15`, from `lib/kernel_api`); the wildcard arm prints
"unimplemented syscall" and executes `unreachable!()`, a panic. -/

/-- The dispatch decision of `handle_syscall`: which `sys_*` handler the
number selects, or the wildcard arm's `unreachable!()` panic. -/
inductive SyscallDispatch where
  | sleep | time | exitProc | writeByte | getpid | fork | yieldCpu
  | readByte | getcwd | writeStr | getPriority
  | panicked
  deriving DecidableEq, Repr

/-- Source `handle_syscall`'s match over the syscall number. -/
def handle_syscall_dispatch (num : Nat) : SyscallDispatch :=
  match num with
  | 1 => .sleep
  | 2 => .time
  | 3 => .exitProc
  | 4 => .writeByte
  | 5 => .getpid
  | 6 => .fork
  | 7 => .yieldCpu
  | 8 => .readByte
  | 9 => .getcwd
  | 14 => .writeStr
  | 15 => .getPriority
  | _ => .panicked

/-- Counterexample for C4: syscall number 0 is not in the implemented table,
and `handle_syscall` does not return with registers unchanged - it takes the
wildcard arm and panics via `unreachable!()`. -/
theorem handle_syscall_unknown_panics_cx :
    handle_syscall_dispatch 0 = SyscallDispatch.panicked := by decide

/-- C4 amended (corrected).  For every syscall number outside the
implemented table {1-9, 14, 15}, `handle_syscall` logs "unimplemented
syscall" and panics via `unreachable!()`; it is not a register-preserving
no-op. -/
theorem handle_syscall_unknown_panics (num : Nat)
    (h : num ∉ ([1, 2, 3, 4, 5, 6, 7, 8, 9, 14, 15] : List Nat)) :
    handle_syscall_dispatch num = SyscallDispatch.panicked := by
  unfold handle_syscall_dispatch
  split <;> simp_all

/-- Witness for C4's amended theorem at syscall number 10 (`NR_CHCWD`,
declared in `kernel_api` but absent from the dispatch table). -/
theorem handle_syscall_unknown_panics_witness :
    (10 : Nat) ∉ ([1, 2, 3, 4, 5, 6, 7, 8, 9, 14, 15] : List Nat) ∧
    handle_syscall_dispatch 10 = SyscallDispatch.panicked :=
  ⟨by decide, handle_syscall_unknown_panics 10 (by decide)⟩

/-!
## C7: bin allocator size classes (`kern/src/allocator/bin.rs`)

`map_to_bin` computes the effective size `s = size.max(align)`, the index of
its highest set bit `nbit = 64 - s.leading_zeros() - 1` (that is `⌊log2 s⌋`,
here `Nat.log2`; `s ≥ 1` because `align ≥ 1`), and returns
`nbit.saturating_sub(3)` when `s` is a power of two and
`(nbit + 1).saturating_sub(3)` otherwise - `Nat` subtraction is exactly
`saturating_sub`.  `alloc` returns null for a zero size or non-power-of-two
alignment, then scans `self.bins[nth..]` (27 free lists; Rust slicing panics
when `nth > 27`), pops the first non-empty list, pushes the split halves
back, and returns null when every scanned list is empty. -/

/-- Rust `usize::is_power_of_two`. -/
def isPow2 (n : Nat) : Bool := n != 0 && (n &&& (n - 1)) == 0

/-- Source `Allocator::bin_size`: class `index` holds blocks of `2^(index+3)`
bytes. -/
def bin_size (index : Nat) : Nat := 1 <<< (index + 3)

/-- Floor of log2 by repeated halving with explicit fuel; 64 iterations
cover every 64-bit value, so this is `64 - s.leading_zeros() - 1` for
`1 ≤ s < 2^64`. -/
def log2fuel : Nat → Nat → Nat
  | 0, _ => 0
  | fuel + 1, n => if 2 ≤ n then log2fuel fuel (n / 2) + 1 else 0

/-- The `nbit` computation of `map_to_bin`:
`mem::size_of::<usize>() * 8 - size.leading_zeros() - 1 = ⌊log2 size⌋`. -/
def floorLog2 (n : Nat) : Nat := log2fuel 64 n

/-- Source `Allocator::map_to_bin`. -/
def map_to_bin (size align : Nat) : Nat :=
  let s := max size align
  let nbit := floorLog2 s
  if isPow2 s then nbit - 3 else nbit + 1 - 3

/-- Modelled from the claim's words, for comparison: `ceil(log2 s)`. -/
def ceilLog2 (s : Nat) : Nat := if isPow2 s then floorLog2 s else floorLog2 s + 1

/-- Modelled from the claim's words, for comparison:
`k = ceil(log2 (max size align)) − 3` clamped to `[0, 26]`. -/
def specMapToBin (size align : Nat) : Nat :=
  min (ceilLog2 (max size align) - 3) 26

/-- Result of `Allocator::alloc`: a panic, a null pointer, or a block
address together with the updated free lists. -/
inductive AllocOutcome where
  | panicked
  | nullPtr
  | ok (addr : Nat) (bins2 : List (List Nat))
  deriving DecidableEq, Repr

/-- Source `LinkedList::push` onto the free list of class `i` (out-of-range `i`
leaves the lists unchanged; never reached with 27 lists). -/
def pushAt (bins : List (List Nat)) (i : Nat) (v : Nat) : List (List Nat) :=
  match bins.get? i with
  | some l => bins.set i (v :: l)
  | none => bins

/-- The split loop of `alloc`: `for off in (0..ith).rev()`, push
`addr + bin_size(nth+off)` onto class `nth+off` - split, retaining the low
buddy. -/
def allocSplit (nth addr : Nat) : Nat → List (List Nat) → List (List Nat)
  | 0, bins => bins
  | off + 1, bins =>
    allocSplit nth addr off (pushAt bins (nth + off) (addr + bin_size (nth + off)))

/-- The scan `for (ith, list) in self.bins[nth..].iter_mut().enumerate()`:
first non-empty list, as (offset, popped head, rest of that list). -/
def findFirstNonempty : List (List Nat) → Option (Nat × Nat × List Nat)
  | [] => none
  | [] :: rest => (findFirstNonempty rest).map fun r => (r.1 + 1, r.2)
  | (a :: l) :: _rest => some (0, a, l)

/-- Source `Allocator::alloc` (`LocalAlloc for Allocator`). -/
def binAlloc (bins : List (List Nat)) (size align : Nat) : AllocOutcome :=
  if size == 0 || !(isPow2 align) then .nullPtr
  else
    if map_to_bin size align ≤ bins.length then
      match findFirstNonempty (bins.drop (map_to_bin size align)) with
      | none => .nullPtr
      | some (ith, addr, lrest) =>
        .ok addr (allocSplit (map_to_bin size align) addr ith
          (bins.set (map_to_bin size align + ith) lrest))
    else .panicked

/-- Counterexample for C7: for effective size `2^30` the code maps to class
27, not the claimed clamp to 26; and for effective size `2^31` (class 28)
the allocation path panics on the out-of-range slice `bins[28..]` instead of
scanning `[k, 26]` and returning NULL. -/
theorem map_to_bin_clamp_cx :
    map_to_bin (2 ^ 30) 1 = 27 ∧
    specMapToBin (2 ^ 30) 1 = 26 ∧
    binAlloc (List.replicate 27 []) (2 ^ 31) 1 = AllocOutcome.panicked := by
  refine ⟨by decide, by decide, by decide⟩

theorem findFirstNonempty_none {L : List (List Nat)}
    (h : ∀ l ∈ L, l = ([] : List Nat)) : findFirstNonempty L = none := by
  induction L with
  | nil => rfl
  | cons a rest ih =>
    have ha : a = [] := h a (List.mem_cons_self a rest)
    subst ha
    rw [findFirstNonempty, ih (fun l hl => h l (List.mem_cons_of_mem _ hl))]
    rfl

theorem pushAt_getElem?_ne (bins : List (List Nat)) (i v j : Nat) (h : j ≠ i) :
    (pushAt bins i v)[j]? = bins[j]? := by
  rw [pushAt]
  rcases hg : bins.get? i with _ | l
  · rfl
  · exact List.getElem?_set_ne (fun he => h he.symm)

theorem allocSplit_getElem?_lt (nth addr : Nat) :
    ∀ (ith : Nat) (bins : List (List Nat)) (j : Nat), j < nth →
      (allocSplit nth addr ith bins)[j]? = bins[j]? := by
  intro ith
  induction ith with
  | zero => intro bins j _; rfl
  | succ off ih =>
    intro bins j hj
    rw [allocSplit, ih _ j hj, pushAt_getElem?_ne _ _ _ _ (by omega)]

/-- C7 amended (corrected).  The size-class mapping is
`k = ceil(log2 (max size align)) − 3` clamped below at 0 but NOT clamped
above at 26.  For `k ≤ 27` the allocation path scans exactly the free lists
of classes `[k, 26]` and returns NULL when all of them are empty (for
`k = 27` it scans nothing); for `k ≥ 28` (effective size above `2^30`)
`alloc` panics on the slice `bins[k..]`; and a successful allocation leaves
every free list of a class below `k` untouched. -/
theorem bin_alloc_amended (size align : Nat) (ha : 1 ≤ align) :
    map_to_bin size align = ceilLog2 (max size align) - 3 ∧
    (∀ bins : List (List Nat), bins.length = 27 →
      (∀ l ∈ bins.drop (map_to_bin size align), l = ([] : List Nat)) →
      map_to_bin size align ≤ 27 →
      binAlloc bins size align = AllocOutcome.nullPtr) ∧
    (∀ bins : List (List Nat), bins.length = 27 →
      28 ≤ map_to_bin size align → size ≠ 0 → isPow2 align = true →
      binAlloc bins size align = AllocOutcome.panicked) ∧
    (∀ bins addr bs, bins.length = 27 →
      binAlloc bins size align = AllocOutcome.ok addr bs →
      ∀ j < map_to_bin size align, bs[j]? = bins[j]?) := by
  refine ⟨?_, ?_, ?_, ?_⟩
  · by_cases h : isPow2 (max size align) = true <;> simp [map_to_bin, ceilLog2, h]
  · intro bins hlen hempty hle
    rw [binAlloc]
    split
    · rfl
    · rw [hlen, if_pos hle, findFirstNonempty_none hempty]
  · intro bins hlen hge hsize hpow
    rw [binAlloc]
    have hguard : (size == 0 || !(isPow2 align)) = false := by
      simp [hsize, hpow]
    rw [hguard]
    simp only [Bool.false_eq_true, if_false]
    rw [hlen, if_neg (by omega)]
  · intro bins addr bs hlen heq j hj
    rw [binAlloc] at heq
    split at heq
    · exact absurd heq (by simp)
    · split at heq
      · split at heq
        · exact absurd heq (by simp)
        · rename_i ith addr2 lrest hfind
          rw [AllocOutcome.ok.injEq] at heq
          obtain ⟨rfl, rfl⟩ := heq
          rw [allocSplit_getElem?_lt _ _ _ _ j hj,
            List.getElem?_set_ne (by omega)]
      · exact absurd heq (by simp)

/-- Witness for C7's amended theorem: request of size 16, alignment 8 maps
to class 1, and on all-empty free lists the allocation returns NULL. -/
theorem bin_alloc_amended_witness :
    map_to_bin 16 8 = ceilLog2 (max 16 8) - 3 ∧
    binAlloc (List.replicate 27 []) 16 8 = AllocOutcome.nullPtr :=
  ⟨(bin_alloc_amended 16 8 (by decide)).1,
    (bin_alloc_amended 16 8 (by decide)).2.1 (List.replicate 27 [])
      (by decide) (by decide) (by decide)⟩

/-!
## C8: `Scheduler::switch_to` (`kern/src/process/scheduler.rs`)

`switch_to` iterates `self.processes.iter_mut().rev()` - the four priority
queues from Realtime (index 3, modelled from the spec: `Priority` with
`Low < Medium < High < Realtime` is in `state.rs`, which is not in the
source tree) down to Low.  Within a queue it polls `is_ready` on each entry
in order: the first ready entry is removed and marked `Running`; entries for
which `is_ready` is false and `is_dead` is true are reaped (removed); others
stay.  `Process::is_ready` returns true for `Ready`/`Running`, panics for
`Start` ("thread just started should not reach here"), returns false for
`Dead`, and polls the boxed predicate for `Waiting` (switching the state to
`Ready` when the predicate fires).  A `Waiting` process's predicate is
modelled by the boolean it returns at this poll.  Queues never hold `Start`
processes in reachable states: `add` sets `Ready` before pushing, and
`schedule_out` pushes only `Ready`/`Waiting`. -/

/-- Source `State` (modelled from the spec; `state.rs` is not in the source tree):
`Waiting` carries the result its predicate returns when polled now. -/
inductive PState where
  | start
  | ready
  | running
  | waiting (fires : Bool)
  | dead
  deriving DecidableEq, Repr

/-- The slice of a `Process` that `switch_to` inspects. -/
structure SProc where
  pid : Nat
  state : PState
  deriving DecidableEq, Repr

/-- Source `Process::is_dead`. -/
def SProc.isDead (p : SProc) : Bool :=
  match p.state with
  | .dead => true
  | _ => false

/-- Source `Process::is_ready`: the poll result and the possibly-updated process;
`none` is the panic on `Start`. -/
def isReadyPoll (p : SProc) : Option (Bool × SProc) :=
  match p.state with
  | .ready => some (true, p)
  | .running => some (true, p)
  | .start => none
  | .dead => some (false, p)
  | .waiting fires =>
    if fires then some (true, { p with state := .ready }) else some (false, p)

/-- Whether a queue entry would be selected if polled now (`Ready`/`Running`,
or `Waiting` whose predicate fires). -/
def readyNow (p : SProc) : Bool :=
  match p.state with
  | .ready => true
  | .running => true
  | .waiting fires => fires
  | _ => false

/-- Result of scanning one priority queue in `switch_to`'s inner `while`
loop: the chosen process (already marked `Running`) and the queue after
removal/reaping, or the queue after reaping only, or the `is_ready` panic. -/
inductive ScanRes where
  | panicked
  | notFound (q : List SProc)
  | found (c : SProc) (q : List SProc)
  deriving DecidableEq, Repr

/-- The inner `while i < processes.len()` loop of `switch_to`: poll
`is_ready`; on true remove the entry and mark it `Running`; on false reap it
if dead, otherwise advance. -/
def scanQueue : List SProc → ScanRes
  | [] => .notFound []
  | p :: rest =>
    match isReadyPoll p with
    | none => .panicked
    | some (true, p2) => .found { p2 with state := .running } rest
    | some (false, p2) =>
      if p2.isDead then scanQueue rest
      else
        match scanQueue rest with
        | .panicked => .panicked
        | .notFound q => .notFound (p2 :: q)
        | .found c q => .found c (p2 :: q)

/-- The outer loop of `switch_to` over the queues in iteration order
(highest priority first).  Returns the queue offset in that order and the
chosen process, plus the updated queues; `none` propagates the `is_ready`
panic; `some (none, _)` is `switch_to` returning `None`. -/
def pickNext : List (List SProc) → Option (Option (Nat × SProc) × List (List SProc))
  | [] => some (none, [])
  | q :: qs =>
    match scanQueue q with
    | .panicked => none
    | .found c q2 => some (some (0, c), q2 :: qs)
    | .notFound q2 =>
      (pickNext qs).map fun r => (r.1.map (fun ic => (ic.1 + 1, ic.2)), q2 :: r.2)

/-- Source `Scheduler::switch_to` selection: queues are scanned Realtime, High,
Medium, Low (`iter().rev()` with `Priority::Low = 0 .. Realtime = 3`), so
offset 0 in the result is the Realtime queue. -/
def switchTo (low med high rt : List SProc) :
    Option (Option (Nat × SProc) × List (List SProc)) :=
  pickNext [rt, high, med, low]

theorem scanQueue_ne_panicked {q : List SProc}
    (h : ∀ p ∈ q, p.state ≠ PState.start) :
    scanQueue q ≠ ScanRes.panicked := by
  induction q with
  | nil => simp [scanQueue]
  | cons p rest ih =>
    have hrest := ih (fun p2 hp2 => h p2 (List.mem_cons_of_mem p hp2))
    have hp := h p (List.mem_cons_self p rest)
    cases hs : p.state with
    | start => exact absurd hs hp
    | ready => simp [scanQueue, isReadyPoll, hs]
    | running => simp [scanQueue, isReadyPoll, hs]
    | dead =>
      simp only [scanQueue, isReadyPoll, hs, SProc.isDead, if_pos]
      exact hrest
    | waiting fires =>
      cases fires with
      | true => simp [scanQueue, isReadyPoll, hs]
      | false =>
        simp only [scanQueue, isReadyPoll, hs, SProc.isDead, Bool.false_eq_true,
          if_false]
        rcases hr : scanQueue rest with _ | q2 | ⟨c, q2⟩
        · exact absurd hr hrest
        · simp
        · simp

theorem scanQueue_notFound {q : List SProc} {q2 : List SProc}
    (heq : scanQueue q = ScanRes.notFound q2) :
    ∀ p ∈ q, readyNow p = false := by
  induction q generalizing q2 with
  | nil => intro p hp; simp at hp
  | cons p rest ih =>
    intro p3 hp3
    rw [scanQueue] at heq
    rcases hpoll : isReadyPoll p with _ | ⟨b, p2⟩ <;> rw [hpoll] at heq
    · simp at heq
    cases b with
    | true => simp at heq
    | false =>
      have hpnot : readyNow p = false := by
        cases hs : p.state with
        | ready => simp [isReadyPoll, hs] at hpoll
        | running => simp [isReadyPoll, hs] at hpoll
        | start => simp [isReadyPoll, hs] at hpoll
        | dead => simp [readyNow, hs]
        | waiting fires =>
          cases fires with
          | true => simp [isReadyPoll, hs] at hpoll
          | false => simp [readyNow, hs]
      rcases List.mem_cons.mp hp3 with rfl | hmem
      · exact hpnot
      · simp only at heq
        split at heq
        · exact ih heq p3 hmem
        · rcases hr : scanQueue rest with _ | q4 | ⟨c, q4⟩ <;> rw [hr] at heq <;>
            simp at heq
          exact ih hr p3 hmem

theorem scanQueue_found {q : List SProc} {c : SProc} {q2 : List SProc}
    (heq : scanQueue q = ScanRes.found c q2) :
    ∃ p ∈ q, readyNow p = true ∧ p.pid = c.pid ∧ p.state ≠ PState.dead ∧
      (∀ fires, p.state = PState.waiting fires → fires = true) := by
  induction q generalizing q2 with
  | nil => simp [scanQueue] at heq
  | cons p rest ih =>
    rw [scanQueue] at heq
    rcases hpoll : isReadyPoll p with _ | ⟨b, p2⟩ <;> rw [hpoll] at heq
    · simp at heq
    cases b with
    | true =>
      simp only [ScanRes.found.injEq] at heq
      obtain ⟨hc, hq2⟩ := heq
      cases hs : p.state with
      | start => simp [isReadyPoll, hs] at hpoll
      | dead => simp [isReadyPoll, hs] at hpoll
      | ready =>
        simp only [isReadyPoll, hs, Option.some.injEq, Prod.mk.injEq,
          true_and] at hpoll
        subst hpoll
        refine ⟨p, List.mem_cons_self p rest, by simp [readyNow, hs], ?_,
          by simp [hs], by simp [hs]⟩
        rw [← hc]
      | running =>
        simp only [isReadyPoll, hs, Option.some.injEq, Prod.mk.injEq,
          true_and] at hpoll
        subst hpoll
        refine ⟨p, List.mem_cons_self p rest, by simp [readyNow, hs], ?_,
          by simp [hs], by simp [hs]⟩
        rw [← hc]
      | waiting fires =>
        cases fires with
        | false => simp [isReadyPoll, hs] at hpoll
        | true =>
          simp only [isReadyPoll, hs, if_pos, Option.some.injEq, Prod.mk.injEq,
            true_and] at hpoll
          subst hpoll
          refine ⟨p, List.mem_cons_self p rest, by simp [readyNow, hs], ?_,
            by simp [hs], ?_⟩
          · rw [← hc]
          · intro f hf
            rw [hs] at hf
            cases hf
            rfl
    | false =>
      simp only at heq
      split at heq
      · obtain ⟨p3, hmem, hprops⟩ := ih heq
        exact ⟨p3, List.mem_cons_of_mem p hmem, hprops⟩
      · rcases hr : scanQueue rest with _ | q4 | ⟨c4, q4⟩ <;> rw [hr] at heq
        · simp at heq
        · simp at heq
        · simp only [ScanRes.found.injEq] at heq
          obtain ⟨hc4, -⟩ := heq
          rw [hc4] at hr
          obtain ⟨p3, hmem, hprops⟩ := ih hr
          exact ⟨p3, List.mem_cons_of_mem p hmem, hprops⟩

theorem pickNext_spec (qs : List (List SProc))
    (hns : ∀ q ∈ qs, ∀ p ∈ q, p.state ≠ PState.start) :
    pickNext qs ≠ none ∧
    (∀ qi c qs2, pickNext qs = some (some (qi, c), qs2) →
      (∃ q, qs[qi]? = some q ∧ ∃ p ∈ q,
        readyNow p = true ∧ p.pid = c.pid ∧ p.state ≠ PState.dead ∧
        (∀ fires, p.state = PState.waiting fires → fires = true)) ∧
      (∀ j q, j < qi → qs[j]? = some q → ∀ p ∈ q, readyNow p = false)) := by
  induction qs with
  | nil =>
    refine ⟨by simp [pickNext], ?_⟩
    intro qi c qs2 heq
    simp [pickNext] at heq
  | cons q qs ih =>
    have hq := hns q (List.mem_cons_self q qs)
    obtain ⟨ihne, ihsel⟩ := ih (fun q2 hq2 => hns q2 (List.mem_cons_of_mem q hq2))
    constructor
    · rw [pickNext]
      rcases hscan : scanQueue q with _ | q2 | ⟨c, q2⟩
      · exact absurd hscan (scanQueue_ne_panicked hq)
      · rcases hpn : pickNext qs with _ | r
        · exact absurd hpn ihne
        · simp
      · simp
    · intro qi c qs2 heq
      rw [pickNext] at heq
      rcases hscan : scanQueue q with _ | q2 | ⟨c2, q2⟩ <;> rw [hscan] at heq
      · simp at heq
      · rcases hpn : pickNext qs with _ | ⟨ro, rqs⟩ <;> rw [hpn] at heq
        · simp at heq
        rcases ro with _ | ⟨ri, rc⟩
        · simp at heq
        simp only [Option.map_some', Option.some.injEq, Prod.mk.injEq] at heq
        obtain ⟨⟨hqi, hcc⟩, hqs2⟩ := heq
        subst hqi
        subst hcc
        obtain ⟨hsel, hprio⟩ := ihsel ri rc rqs hpn
        constructor
        · obtain ⟨qq, hqq, hrest⟩ := hsel
          exact ⟨qq, by simpa using hqq, hrest⟩
        · intro j qj hj hqj
          rcases j with _ | j2
          · simp only [List.getElem?_cons_zero, Option.some.injEq] at hqj
            subst hqj
            exact scanQueue_notFound hscan
          · simp only [List.getElem?_cons_succ] at hqj
            exact hprio j2 qj (by omega) hqj
      · simp only [Option.some.injEq, Prod.mk.injEq] at heq
        obtain ⟨⟨hqi, hcc⟩, hqs2⟩ := heq
        subst hqi
        subst hcc
        refine ⟨⟨q, List.getElem?_cons_zero, scanQueue_found hscan⟩, ?_⟩
        intro j qj hj
        exact absurd hj (Nat.not_lt_zero j)
/-- C8 (confirmed).  `switch_to` (with no `Start` process in any queue -
true in every reachable scheduler state, since `add` marks processes `Ready`
before pushing and `schedule_out` pushes only `Ready`/`Waiting`) never
panics, and whenever it selects a process: the selected entry was ready at
its poll - never `Dead`, and a `Waiting` entry only if its predicate
returned true - and every queue of strictly higher priority than the
selected one contained no ready process, so in particular when a Realtime
process is ready the selection comes from the Realtime queue (offset 0),
never from Low, Medium or High. -/
theorem switch_to_selection (low med high rt : List SProc)
    (hns : ∀ p ∈ low ++ med ++ high ++ rt, p.state ≠ PState.start) :
    switchTo low med high rt ≠ none ∧
    (∀ qi c qs2, switchTo low med high rt = some (some (qi, c), qs2) →
      (∃ q, [rt, high, med, low][qi]? = some q ∧ ∃ p ∈ q,
        readyNow p = true ∧ p.pid = c.pid ∧ p.state ≠ PState.dead ∧
        (∀ fires, p.state = PState.waiting fires → fires = true)) ∧
      ((∃ p ∈ rt, readyNow p = true) → qi = 0)) := by
  have hns2 : ∀ q ∈ [rt, high, med, low], ∀ p ∈ q, p.state ≠ PState.start := by
    intro q hq p hp
    apply hns
    simp only [List.mem_cons, List.not_mem_nil, or_false] at hq
    rcases hq with rfl | rfl | rfl | rfl <;> simp [hp]
  obtain ⟨hne, hsel⟩ := pickNext_spec [rt, high, med, low] hns2
  refine ⟨hne, ?_⟩
  intro qi c qs2 heq
  obtain ⟨hfound, hprio⟩ := hsel qi c qs2 heq
  refine ⟨hfound, ?_⟩
  rintro ⟨p, hp, hready⟩
  by_contra hqi
  have h0 := hprio 0 rt (by omega) (by simp) p hp
  rw [hready] at h0
  exact absurd h0 (by simp)

/-- Witness for C8: a ready Low process, a reapable dead High process and a
Realtime process whose wait predicate fires; the Realtime process is
selected. -/
theorem switch_to_selection_witness :
    (∀ p ∈ ([⟨1, PState.ready⟩] ++ [] ++ [⟨3, PState.dead⟩] ++
        [⟨2, PState.waiting true⟩] : List SProc), p.state ≠ PState.start) ∧
    switchTo [⟨1, PState.ready⟩] [] [⟨3, PState.dead⟩]
      [⟨2, PState.waiting true⟩] ≠ none :=
  ⟨by decide,
    (switch_to_selection [⟨1, PState.ready⟩] [] [⟨3, PState.dead⟩]
      [⟨2, PState.waiting true⟩] (by decide)).1⟩

/-!
## C9: `sys_sleep` (`kern/src/traps/syscall.rs`)

`sys_sleep(ms, tf)` reads the monotonic clock (`t0`), computes the wake-up
deadline with `Duration::checked_add`, and either suspends the process as
`Waiting` with a boxed predicate or - when the deadline is not representable
- prints "timer overflow" and sets `tf.x[7] = 0` (the error status) without
suspending.  A `Duration` is `(secs: u64, nanos: u32 < 10^9)`, embedded as a
count of nanoseconds below `2^64 * 10^9`; `checked_add` fails exactly when
the sum reaches that bound.  The clock reading at a poll of the predicate is
the `now` parameter. -/

/-- Exclusive upper bound of `core::time::Duration` in nanoseconds:
`secs : u64` overflows at `2^64` seconds. -/
def DUR_BOUND : Nat := 2 ^ 64 * 1000000000

/-- Source `Duration::checked_add`. -/
def durCheckedAdd (a b : Nat) : Option Nat :=
  if a + b < DUR_BOUND then some (a + b) else none

/-- Source `Duration::from_millis`. -/
def durFromMillis (ms : Nat) : Nat := ms * 1000000

/-- Source `Duration::as_millis` (truncating). -/
def durAsMillis (d : Nat) : Nat := d / 1000000

/-- What `sys_sleep` does: either return immediately with the error status
written to `x7`, or call `SCHEDULER.switch(State::Waiting(is_awake), tf)`
with a predicate that captured `current_time` (`t0`) and `awake_time`. -/
inductive SleepAction where
  | errOverflow (tf : TrapFrame)
  | waits (t0 awake : Nat)
  deriving DecidableEq, Repr

/-- Source `sys_sleep`, with the clock reading `t0` passed explicitly. -/
def sys_sleep (ms t0 : Nat) (tf : TrapFrame) : SleepAction :=
  match durCheckedAdd t0 (durFromMillis ms) with
  | some awake => .waits t0 awake
  | none => .errOverflow (tf.setX 7 0)

/-- The boxed `is_awake` predicate: polled at time `now` against the
process's trap frame, it writes the elapsed milliseconds into `x0`
(`as_millis() as u64`, hence the `% 2^64`) and the success status into `x7`
and returns true once `now ≥ awake_time`, and returns false leaving the
process untouched before that. -/
def sleep_pred (t0 awake : Nat) (now : Nat) (tf : TrapFrame) : Bool × TrapFrame :=
  if awake ≤ now then
    (true, (tf.setX 0 (durAsMillis (now - t0) % 2 ^ 64)).setX 7 1)
  else (false, tf)

/-- C9 (confirmed).  If the deadline `t0 + ms` overflows the time
representation, `sys_sleep` sets `x7` to the error value 0 and returns
without suspending; otherwise the process enters `Waiting` with a predicate
that returns false (no writes) while `now` is below the deadline, and at the
first poll at or after the deadline writes the elapsed milliseconds
`(now − t0)` into `x0` and the success status 1 into `x7` and returns
true. -/
theorem sys_sleep_spec (ms t0 : Nat) (tf : TrapFrame)
    (hms : ms < 2 ^ 32) (ht0 : t0 < DUR_BOUND) :
    (DUR_BOUND ≤ t0 + durFromMillis ms →
      sys_sleep ms t0 tf = SleepAction.errOverflow (tf.setX 7 0)) ∧
    (t0 + durFromMillis ms < DUR_BOUND →
      sys_sleep ms t0 tf = SleepAction.waits t0 (t0 + durFromMillis ms) ∧
      (∀ now tf2, now < t0 + durFromMillis ms →
        sleep_pred t0 (t0 + durFromMillis ms) now tf2 = (false, tf2)) ∧
      (∀ now tf2, t0 + durFromMillis ms ≤ now →
        sleep_pred t0 (t0 + durFromMillis ms) now tf2 =
          (true, (tf2.setX 0 (((now - t0) / 1000000) % 2 ^ 64)).setX 7 1))) := by
  constructor
  · intro hof
    rw [sys_sleep, durCheckedAdd, if_neg (by omega)]
  · intro hlt
    refine ⟨by rw [sys_sleep, durCheckedAdd, if_pos hlt], ?_, ?_⟩
    · intro now tf2 hnow
      rw [sleep_pred, if_neg (by omega)]
    · intro now tf2 hnow
      rw [sleep_pred, if_pos hnow]
      rfl

/-- Witness for C9: `sleep(100)` at time `t0 = 0`; the deadline is
100 ms and the predicate polled at 250 ms reports 250 elapsed
milliseconds. -/
theorem sys_sleep_spec_witness :
    ((100 : Nat) < 2 ^ 32) ∧ ((0 : Nat) < DUR_BOUND) ∧
    (0 + durFromMillis 100 < DUR_BOUND →
      sys_sleep 100 0 TrapFrame.zeroed =
        SleepAction.waits 0 (0 + durFromMillis 100) ∧
      (∀ now tf2, now < 0 + durFromMillis 100 →
        sleep_pred 0 (0 + durFromMillis 100) now tf2 = (false, tf2)) ∧
      (∀ now tf2, 0 + durFromMillis 100 ≤ now →
        sleep_pred 0 (0 + durFromMillis 100) now tf2 =
          (true, (tf2.setX 0 (((now - 0) / 1000000) % 2 ^ 64)).setX 7 1))) :=
  ⟨by decide, by decide, (sys_sleep_spec 100 0 TrapFrame.zeroed (by decide)
    (by decide)).2⟩

/-!
## C10: `Process::fork` (`kern/src/process/process.rs`)

`Process::fork` builds a brand-new process with `Process::new("", false)` -
empty name, default (all-`None`, 16-slot) `open_file_table`, `cwd = "/"`,
state `Start`, a fresh empty user page table, a fresh 1-MiB kernel stack and
a context pointing at `fork_ret` - then copies exactly two things from the
parent: `cwd` (cloned) and the user page-table contents
(`vmap.from(parent.vmap)`, the C5 clone).  The kernel-stack allocation is
assumed to succeed (`Stack::new` failure would surface as
`Err(OsError::NoMemory)`); the fresh stack's top address and the allocator's
frames are parameters. -/

/-- Source `Context` (`kern/src/process/context.rs`): callee-saved registers,
link register and kernel stack pointer - 104 bytes. -/
structure ContextR where
  x19 : Nat
  x20 : Nat
  x21 : Nat
  x22 : Nat
  x23 : Nat
  x24 : Nat
  x25 : Nat
  x26 : Nat
  x27 : Nat
  x28 : Nat
  x29 : Nat
  lr : Nat
  sp_el1 : Nat
  deriving DecidableEq, Repr

/-- The zeroed `Context` (`Default`). -/
def ContextR.zeroed : ContextR := ⟨0, 0, 0, 0, 0, 0, 0, 0, 0, 0, 0, 0, 0⟩

/-- Symbolic address of the `fork_ret` entry point `Process::new` stores in
`context.lr` for user processes. -/
def FORK_RET : Nat := 0

/-- Source `Process` (`kern/src/process/process.rs`), the fields the verified
operations touch; an open-file-table slot's `fat32::vfat::Entry` handle is
abstracted to a `Nat`. -/
structure ProcessR where
  pid : Nat
  name : String
  trap_frame : TrapFrame
  context : ContextR
  stackTop : Nat
  vmap : Option (List Nat)
  open_file_table : List (Option Nat)
  cwd : String
  state : PState
  next_tick_time : Option Nat

/-- Source `Process::new(name, kernel_thread = false)` on the success path: zeroed
trap frame, context entering `fork_ret` on the fresh stack, state `Start`, a
fresh empty `UserPageTable` (2 × 8192 invalid entries), default (all-`None`)
16-slot open-file table and `cwd = "/"`. -/
def Process.new (name : String) (stackTop : Nat) : ProcessR :=
  { pid := 0
    name := name
    trap_frame := TrapFrame.zeroed
    context := { ContextR.zeroed with lr := FORK_RET, sp_el1 := stackTop }
    stackTop := stackTop
    vmap := some (List.replicate 16384 0)
    open_file_table := List.replicate 16 none
    cwd := "/"
    state := PState.start
    next_tick_time := none }

/-- Source `Process::fork`: `Process::new("")`, then `p.cwd = self.cwd.clone()` and
`p.vmap.from(self.vmap)`; `none` is the `unwrap` panic on a kernel thread
(no vmap) or the clone's allocation panic. -/
def Process.fork (parent : ProcessR) (stackTop : Nat) (frames : List Nat)
    (mem : Nat → Nat) : Option (ProcessR × (Nat → Nat) × List Nat) :=
  parent.vmap.bind fun pvmap =>
    (clone_from mem pvmap frames).map fun r =>
      ({ Process.new "" stackTop with
          cwd := parent.cwd, vmap := some r.1 }, r.2)

/-- C10 (confirmed).  Whenever `Process::fork` returns a child, the child
inherits exactly the parent's working directory and (cloned) page-table
contents: its open-file table is the fresh all-`None` 16-slot array and its
name is the empty string, whatever the parent's open files and name were, so
open files are never inherited across fork. -/
theorem process_fork_fresh_tables (parent : ProcessR) (stackTop : Nat)
    (frames : List Nat) (mem : Nat → Nat) (child : ProcessR) (m : Nat → Nat)
    (rest : List Nat)
    (heq : Process.fork parent stackTop frames mem = some (child, m, rest)) :
    child.open_file_table = List.replicate 16 none ∧
    child.name = "" ∧
    child.cwd = parent.cwd ∧
    child.state = PState.start ∧
    child.pid = 0 ∧
    (∃ pvmap news, parent.vmap = some pvmap ∧ child.vmap = some news ∧
      clone_from mem pvmap frames = some (news, m, rest)) := by
  rw [Process.fork] at heq
  rcases hv : parent.vmap with _ | pvmap <;> rw [hv] at heq
  · simp at heq
  simp only [Option.some_bind] at heq
  rcases hc : clone_from mem pvmap frames with _ | ⟨news, m2, rest2⟩ <;>
    rw [hc] at heq
  · simp at heq
  simp only [Option.map_some', Option.some.injEq, Prod.mk.injEq] at heq
  obtain ⟨hchild, hm, hrest⟩ := heq
  subst hm
  subst hrest
  rw [← hchild]
  exact ⟨rfl, rfl, rfl, rfl, rfl, pvmap, news, rfl, rfl, hc⟩

/-- A parent with a non-trivial name, an open file in the last table slot
and a non-root working directory, used to witness C10. -/
def forkWitnessParent : ProcessR :=
  { pid := 5
    name := "shell"
    trap_frame := TrapFrame.zeroed
    context := ContextR.zeroed
    stackTop := 0
    vmap := some []
    open_file_table := List.replicate 15 none ++ [some 3]
    cwd := "/bin"
    state := PState.ready
    next_tick_time := none }

/-- Witness for C10: forking `forkWitnessParent` yields a child with an
all-`None` open-file table, empty name and the parent's `cwd`. -/
theorem process_fork_fresh_tables_witness :
    ∃ child m rest,
      Process.fork forkWitnessParent 0 [] (fun _ => 0) = some (child, m, rest) ∧
      child.open_file_table = List.replicate 16 none ∧
      child.name = "" ∧
      child.cwd = forkWitnessParent.cwd := by
  refine ⟨_, _, _, rfl, ?_⟩
  have h := process_fork_fresh_tables forkWitnessParent 0 [] (fun _ => 0)
    _ _ _ rfl
  exact ⟨h.1, h.2.1, h.2.2.1⟩

end RustOS
